import Mathlib

/-!
Verification of the mouse-tracker / Fitts-task trial engine.

The definitions below are a shallow embedding of the two Python variants in
the repository: the optimized variant (`src/unnamed/part_000`, named
`mouse_tracker 01.py` in its header) and the legacy variant
(`src/mouse_tracker.py`).  Python floats are modelled as real numbers;
injectable randomness (angle draws, position draws, shuffles) is modelled by
explicit streams passed as arguments; `while` loops whose iteration count is
bounded by the code itself are modelled by structurally recursive functions
carrying exactly that bound as fuel.
-/

set_option maxHeartbeats 1000000

namespace MouseTracker

/-- A recorded mouse sample: canvas coordinates and a timestamp, mirroring the
`(x, y, t)` triples stored in `trajectory_data`. -/
structure Sample where
  x : ℝ
  y : ℝ
  t : ℝ

/-- Euclidean length of a 2-d vector, mirroring Python's `math.hypot` (and the
legacy variant's `math.sqrt((x2-x1)**2 + (y2-y1)**2)`). -/
noncomputable def hypot (dx dy : ℝ) : ℝ := Real.sqrt (dx ^ 2 + dy ^ 2)

/-- The per-trial metrics dictionary returned by `analyze_single_trial` in the
optimized variant. -/
structure TrialResult where
  time : ℝ
  distance : ℝ
  ideal_distance : ℝ
  speed : ℝ
  curvature : ℝ
  id : ℝ
  throughput : ℝ
  target_x : ℝ
  target_y : ℝ
  trajectory : List Sample
  peak_velocity : ℝ
  reaction_time : ℝ

/-- The loop `for i in range(1, len(trajectory)): total_distance += d`,
accumulating segment lengths starting from previous sample `p`. -/
noncomputable def total_distance_from (p : Sample) : List Sample → ℝ
  | [] => 0
  | q :: rest => hypot (q.x - p.x) (q.y - p.y) + total_distance_from q rest

/-- The `total_distance` of a whole trajectory (`0` for the empty trajectory). -/
noncomputable def total_distance : List Sample → ℝ
  | [] => 0
  | p :: rest => total_distance_from p rest

/-- The `velocities` list: one `d / dt` entry per consecutive segment with
`dt > 0` (zero- or negative-duration segments contribute nothing). -/
noncomputable def velocities_from (p : Sample) : List Sample → List ℝ
  | [] => []
  | q :: rest =>
      (if 0 < q.t - p.t then [hypot (q.x - p.x) (q.y - p.y) / (q.t - p.t)] else [])
        ++ velocities_from q rest

/-- The `velocities` list of a whole trajectory. -/
noncomputable def velocities : List Sample → List ℝ
  | [] => []
  | p :: rest => velocities_from p rest

/-- Python's `max(velocities) if velocities else 0.0`. -/
noncomputable def peak_velocity_of : List ℝ → ℝ
  | [] => 0
  | v :: rest => rest.foldl max v

/-- The reaction-time scan of `analyze_single_trial`: starting from previous
sample `p` with running total `acc`, accumulate segment distances; at the
first sample where the running total reaches `thr`, return its timestamp
offset from `t0`; return `0` if the threshold is never reached. -/
noncomputable def reaction_time_from (t0 thr : ℝ) : ℝ → Sample → List Sample → ℝ
  | _, _, [] => 0
  | acc, p, q :: rest =>
      if thr ≤ acc + hypot (q.x - p.x) (q.y - p.y) then q.t - t0
      else reaction_time_from t0 thr (acc + hypot (q.x - p.x) (q.y - p.y)) q rest

/-- The `reaction_time` of a whole trajectory (movement threshold 5 px). -/
noncomputable def reaction_time_of : List Sample → ℝ
  | [] => 0
  | p :: rest => reaction_time_from p.t 5 0 p rest

/-- The general (`len(trajectory) >= 2`) branch of `analyze_single_trial` in
the optimized variant, with `R` the current `TARGET_RADIUS`. -/
noncomputable def analyze_general (R : ℝ) (trajectory : List Sample)
    (target_pos : ℝ × ℝ) : TrialResult :=
  let first := trajectory.headD ⟨0, 0, 0⟩
  let last := trajectory.getLastD ⟨0, 0, 0⟩
  let total := total_distance trajectory
  let ideal := hypot (last.x - first.x) (last.y - first.y)
  let time_elapsed := if first.t < last.t then last.t - first.t else 0
  let width := 2 * R
  let idx := if 0 < width then Real.logb 2 (ideal / width + 1) else 0
  { time := time_elapsed
    distance := total
    ideal_distance := ideal
    speed := if 0 < time_elapsed then total / time_elapsed else 0
    curvature := if 0 < ideal then total / ideal else 1
    id := idx
    throughput := if 0 < time_elapsed then idx / time_elapsed else 0
    target_x := target_pos.1
    target_y := target_pos.2
    trajectory := trajectory
    peak_velocity := peak_velocity_of (velocities trajectory)
    reaction_time := reaction_time_of trajectory }

/-- The function `analyze_single_trial` of the optimized variant
(`src/unnamed/part_000`). -/
noncomputable def analyze_single_trial (R : ℝ) (trajectory : List Sample)
    (target_pos : ℝ × ℝ) : TrialResult :=
  if trajectory.length < 2 then
    { time := 0, distance := 0, speed := 0, curvature := 1, ideal_distance := 0,
      target_x := target_pos.1, target_y := target_pos.2, id := 0, throughput := 0,
      trajectory := trajectory, peak_velocity := 0, reaction_time := 0 }
  else analyze_general R trajectory target_pos

/-- The per-trial metrics dictionary of the legacy variant
(`src/mouse_tracker.py`), which has no peak-velocity/reaction-time fields. -/
structure LegacyTrialResult where
  time : ℝ
  distance : ℝ
  ideal_distance : ℝ
  speed : ℝ
  curvature : ℝ
  id : ℝ
  throughput : ℝ
  target_x : ℝ
  target_y : ℝ
  trajectory : List Sample

/-- The function `analyze_single_trial` of the legacy variant
(`src/mouse_tracker.py`).
Note two differences from the optimized variant: the degenerate branch returns
`"trajectory": []` (it drops the input), and `time_elapsed` is not floored
at `0`. -/
noncomputable def analyze_single_trial_legacy (R : ℝ) (trajectory : List Sample)
    (target_pos : ℝ × ℝ) : LegacyTrialResult :=
  if trajectory.length < 2 then
    { time := 0, distance := 0, speed := 0, curvature := 1, ideal_distance := 0,
      target_x := target_pos.1, target_y := target_pos.2, id := 0, throughput := 0,
      trajectory := [] }
  else
    let first := trajectory.headD ⟨0, 0, 0⟩
    let last := trajectory.getLastD ⟨0, 0, 0⟩
    let total := total_distance trajectory
    let ideal := hypot (last.x - first.x) (last.y - first.y)
    let time_elapsed := last.t - first.t
    let idx := if 0 < 2 * R then Real.logb 2 (ideal / (2 * R) + 1) else 0
    { time := time_elapsed
      distance := total
      ideal_distance := ideal
      speed := if 0 < time_elapsed then total / time_elapsed else 0
      curvature := if 0 < ideal then total / ideal else 1
      id := idx
      throughput := if 0 < time_elapsed then idx / time_elapsed else 0
      target_x := target_pos.1
      target_y := target_pos.2
      trajectory := trajectory }

/-- The recording state owned by the controller: the open trajectory and
`last_sample_time`. -/
structure RecState where
  trajectory_data : List Sample
  last_sample_time : ℝ

/-- The handler `record_movement` of the optimized variant: ignore events while not
recording; otherwise append the sample and advance `last_sample_time` iff at
least `min_sample_interval` has elapsed since the last accepted sample. -/
noncomputable def record_movement (is_recording : Bool) (min_sample_interval : ℝ)
    (st : RecState) (ex ey now : ℝ) : RecState :=
  if is_recording then
    if min_sample_interval ≤ now - st.last_sample_time then
      { trajectory_data := st.trajectory_data ++ [⟨ex, ey, now⟩],
        last_sample_time := now }
    else st
  else st

/-- In `spawn_target` the controller seeds the new trajectory with the reference point
(`last_click_pos`) stamped at the trial start time. -/
def spawn_trajectory (ref : ℝ × ℝ) (start_time : ℝ) : List Sample :=
  [⟨ref.1, ref.2, start_time⟩]

/-- The trajectory a completed trial hands to `analyze_single_trial`: the seed
sample written by `spawn_target`, the throttled motion samples collected by
`record_movement`, and the hit sample appended unconditionally by
`handle_target_click`. -/
noncomputable def completed_trajectory (ref : ℝ × ℝ)
    (start_time min_sample_interval : ℝ) (moves : List (ℝ × ℝ × ℝ))
    (hit : Sample) : List Sample :=
  (moves.foldl
      (fun st m => record_movement true min_sample_interval st m.1 m.2.1 m.2.2)
      { trajectory_data := spawn_trajectory ref start_time,
        last_sample_time := start_time }).trajectory_data ++ [hit]

/-- The trial-count half of `parse_params`: Python parses the entry with `int(...)`
and raises on a non-positive result; any failure falls back to 10.  `none`
models an entry `int(...)` cannot parse. -/
def parse_trials : Option ℤ → ℤ
  | none => 10
  | some n => if n ≤ 0 then 10 else n

/-- The sample-interval half of `parse_params`: parsed with `float(...)`, any failure
or non-positive value falls back to 0.01. -/
def parse_interval : Option ℚ → ℚ
  | none => 1 / 100
  | some s => if s ≤ 0 then 1 / 100 else s

/-- The whole of `parse_params`: validate both entries, substituting defaults on invalid
input. -/
def parse_params (trial_entry : Option ℤ) (sample_entry : Option ℚ) : ℤ × ℚ :=
  (parse_trials trial_entry, parse_interval sample_entry)

/-- The `while len(plan) < max_trials` loop of `prepare_preset_plan`: each pass
appends a freshly shuffled copy of the combination list (`shuffles i` models
the shuffle drawn at pass `i`).  Every pass appends at least one element
whenever the combination list is non-empty, so `max_trials + 1` passes always
suffice; the fuel argument carries that bound to make the recursion
structural. -/
def plan_loop {α : Type*} (shuffles : ℕ → List α) (max_trials : ℕ) :
    ℕ → ℕ → List α → List α
  | 0, _, plan => plan
  | fuel + 1, i, plan =>
      if plan.length < max_trials then
        plan_loop shuffles max_trials fuel (i + 1) (plan ++ shuffles i)
      else plan

/-- The `combos` cross-product list built by `prepare_preset_plan`:
`for d in preset_distances: for w in preset_widths: combos.append(...)`. -/
def combos_of (preset_distances preset_widths : List ℚ) : List (ℚ × ℚ) :=
  preset_distances.flatMap fun d => preset_widths.map fun w => (d, w)

/-- The planner `prepare_preset_plan`: concatenate shuffled copies of `combos` until the
plan reaches `max_trials` elements, then truncate to exactly `max_trials`.
`shuffle i` models the permutation `random.shuffle` applies to the copy of
`combos` made on pass `i`. -/
def prepare_preset_plan (preset_distances preset_widths : List ℚ)
    (max_trials : ℕ) (shuffle : ℕ → List (ℚ × ℚ) → List (ℚ × ℚ)) : List (ℚ × ℚ) :=
  (plan_loop (fun i => shuffle i (combos_of preset_distances preset_widths))
      max_trials (max_trials + 1) 0 []).take max_trials

/-- Python's `int(...)` applied to a real number: truncation toward zero. -/
noncomputable def pyInt (x : ℝ) : ℤ := if 0 ≤ x then ⌊x⌋ else ⌈x⌉

/-- One candidate of the preset placement search: the reference point offset by
`dist` at angle `ang`, coordinates truncated by `int(...)`. -/
noncomputable def preset_candidate (ref : ℤ × ℤ) (dist ang : ℝ) : ℤ × ℤ :=
  (pyInt (ref.1 + dist * Real.cos ang), pyInt (ref.2 + dist * Real.sin ang))

/-- The in-canvas test `margin <= tx <= canvas_width - margin and
margin <= ty <= canvas_height - margin`. -/
def in_margin (canvas_width canvas_height margin : ℤ) (p : ℤ × ℤ) : Prop :=
  margin ≤ p.1 ∧ p.1 ≤ canvas_width - margin ∧
    margin ≤ p.2 ∧ p.2 ≤ canvas_height - margin

instance (cw ch m : ℤ) (p : ℤ × ℤ) : Decidable (in_margin cw ch m p) := by
  unfold in_margin
  infer_instance

/-- The `while not placed and attempts < 36` angle search of `spawn_target`
(preset mode): `angles k` models the `k`-th random angle draw; returns the
first in-canvas candidate among the next `fuel` draws, `none` if all fail. -/
noncomputable def preset_search (cw ch margin : ℤ) (ref : ℤ × ℤ) (dist : ℝ)
    (angles : ℕ → ℝ) : ℕ → ℕ → Option (ℤ × ℤ)
  | 0, _ => none
  | fuel + 1, k =>
      if in_margin cw ch margin (preset_candidate ref dist (angles k)) then
        some (preset_candidate ref dist (angles k))
      else preset_search cw ch margin ref dist angles fuel (k + 1)

/-- Preset-mode placement in `spawn_target`: radius `max(2, int(width / 2))`,
margin `10 + radius`, at most 36 random-angle attempts, falling back to the
free placement (`_random_target_far_from`, passed as `fallback`) when every
attempt lands outside the canvas margins. -/
noncomputable def spawn_target_preset (cw ch : ℤ) (ref : ℤ × ℤ) (dist width : ℝ)
    (angles : ℕ → ℝ) (fallback : ℤ × ℤ) : ℤ × ℤ :=
  match preset_search cw ch (10 + max 2 (pyInt (width / 2))) ref dist angles 36 0 with
  | some p => p
  | none => fallback

/-- The quantity `math.hypot(tx - pos[0], ty - pos[1])` for the `k`-th draw of
`_random_target_far_from`. -/
noncomputable def draw_dist (draws : ℕ → ℤ × ℤ) (pos : ℤ × ℤ) (k : ℕ) : ℝ :=
  hypot (((draws k).1 - pos.1 : ℤ) : ℝ) (((draws k).2 - pos.2 : ℤ) : ℝ)

/-- The retry loop of `_random_target_far_from`: redraw while the draw is
closer than `min_dist` to `pos`, accepting unconditionally once
`attempts > 30`; `draws k` models the `k`-th random draw (so `attempts`
equals `k + 1`).  31 draws always suffice; the fuel argument carries that
bound to make the recursion structural. -/
noncomputable def far_from_loop (draws : ℕ → ℤ × ℤ) (pos : ℤ × ℤ)
    (min_dist : ℝ) : ℕ → ℕ → ℤ × ℤ
  | 0, k => draws k
  | fuel + 1, k =>
      if min_dist ≤ draw_dist draws pos k ∨ 30 < k + 1 then draws k
      else far_from_loop draws pos min_dist fuel (k + 1)

/-- The placement `_random_target_far_from` with its injectable stream of random draws
(default minimum separation 80 px, as in the source). -/
noncomputable def random_target_far_from (draws : ℕ → ℤ × ℤ) (pos : ℤ × ℤ)
    (min_dist : ℝ := 80) : ℤ × ℤ :=
  far_from_loop draws pos min_dist 31 0

/-! ### Basic facts about `hypot` -/

lemma hypot_nonneg (dx dy : ℝ) : 0 ≤ hypot dx dy := Real.sqrt_nonneg _

lemma hypot_eq_abs_complex (a b : ℝ) : hypot a b = Complex.abs ⟨a, b⟩ := by
  rw [Complex.abs_apply, Complex.normSq_mk, hypot]
  congr 1
  ring

lemma hypot_triangle (a b c d : ℝ) :
    hypot (a + c) (b + d) ≤ hypot a b + hypot c d := by
  rw [hypot_eq_abs_complex, hypot_eq_abs_complex, hypot_eq_abs_complex]
  have hsum : (⟨a, b⟩ + ⟨c, d⟩ : ℂ) = ⟨a + c, b + d⟩ := by
    apply Complex.ext <;> simp
  calc Complex.abs ⟨a + c, b + d⟩
      = Complex.abs (⟨a, b⟩ + ⟨c, d⟩) := by rw [hsum]
    _ ≤ Complex.abs ⟨a, b⟩ + Complex.abs ⟨c, d⟩ := Complex.abs.add_le _ _

lemma hypot_self_zero : hypot 0 0 = 0 := by
  simp [hypot]

lemma hypot_of_nonneg_left (a : ℝ) (h : 0 ≤ a) : hypot a 0 = a := by
  rw [hypot]
  rw [show a ^ 2 + 0 ^ 2 = a ^ 2 by ring, Real.sqrt_sq h]

lemma hypot_three_four : hypot 3 4 = 5 := by
  rw [hypot, show (3 : ℝ) ^ 2 + 4 ^ 2 = 5 ^ 2 by norm_num,
    Real.sqrt_sq (by norm_num)]

/-! ### Field characterizations of the analyzers -/

lemma analyze_general_reaction_time (R : ℝ) (traj : List Sample) (tp : ℝ × ℝ) :
    (analyze_general R traj tp).reaction_time = reaction_time_of traj := rfl

lemma analyze_general_distance (R : ℝ) (traj : List Sample) (tp : ℝ × ℝ) :
    (analyze_general R traj tp).distance = total_distance traj := rfl

lemma analyze_general_ideal (R : ℝ) (traj : List Sample) (tp : ℝ × ℝ) :
    (analyze_general R traj tp).ideal_distance =
      hypot ((traj.getLastD ⟨0, 0, 0⟩).x - (traj.headD ⟨0, 0, 0⟩).x)
        ((traj.getLastD ⟨0, 0, 0⟩).y - (traj.headD ⟨0, 0, 0⟩).y) := rfl

lemma analyze_general_time (R : ℝ) (traj : List Sample) (tp : ℝ × ℝ) :
    (analyze_general R traj tp).time =
      if (traj.headD ⟨0, 0, 0⟩).t < (traj.getLastD ⟨0, 0, 0⟩).t then
        (traj.getLastD ⟨0, 0, 0⟩).t - (traj.headD ⟨0, 0, 0⟩).t
      else 0 := rfl

lemma analyze_general_curvature (R : ℝ) (traj : List Sample) (tp : ℝ × ℝ) :
    (analyze_general R traj tp).curvature =
      if 0 < (analyze_general R traj tp).ideal_distance then
        (analyze_general R traj tp).distance /
          (analyze_general R traj tp).ideal_distance
      else 1 := rfl

lemma analyze_single_trial_of_short (R : ℝ) (traj : List Sample) (tp : ℝ × ℝ)
    (h : traj.length < 2) :
    analyze_single_trial R traj tp =
      { time := 0, distance := 0, speed := 0, curvature := 1, ideal_distance := 0,
        target_x := tp.1, target_y := tp.2, id := 0, throughput := 0,
        trajectory := traj, peak_velocity := 0, reaction_time := 0 } := by
  rw [analyze_single_trial, if_pos h]

lemma analyze_single_trial_of_long (R : ℝ) (traj : List Sample) (tp : ℝ × ℝ)
    (h : ¬ traj.length < 2) :
    analyze_single_trial R traj tp = analyze_general R traj tp := by
  rw [analyze_single_trial, if_neg h]

lemma analyze_legacy_ideal (R : ℝ) (traj : List Sample) (tp : ℝ × ℝ)
    (h : ¬ traj.length < 2) :
    (analyze_single_trial_legacy R traj tp).ideal_distance =
      hypot ((traj.getLastD ⟨0, 0, 0⟩).x - (traj.headD ⟨0, 0, 0⟩).x)
        ((traj.getLastD ⟨0, 0, 0⟩).y - (traj.headD ⟨0, 0, 0⟩).y) := by
  rw [analyze_single_trial_legacy, if_neg h]

lemma analyze_legacy_distance (R : ℝ) (traj : List Sample) (tp : ℝ × ℝ)
    (h : ¬ traj.length < 2) :
    (analyze_single_trial_legacy R traj tp).distance = total_distance traj := by
  rw [analyze_single_trial_legacy, if_neg h]

lemma analyze_legacy_curvature (R : ℝ) (traj : List Sample) (tp : ℝ × ℝ)
    (h : ¬ traj.length < 2) :
    (analyze_single_trial_legacy R traj tp).curvature =
      if 0 < (analyze_single_trial_legacy R traj tp).ideal_distance then
        total_distance traj / (analyze_single_trial_legacy R traj tp).ideal_distance
      else 1 := by
  rw [analyze_single_trial_legacy, if_neg h]

/-! ### The recorded path is at least as long as the straight line -/

lemma straight_le_total_distance_from :
    ∀ (rest : List Sample) (p : Sample),
      hypot ((rest.getLastD p).x - p.x) ((rest.getLastD p).y - p.y) ≤
        total_distance_from p rest := by
  intro rest
  induction rest with
  | nil =>
      intro p
      simp [List.getLastD, total_distance_from, sub_self, hypot_self_zero]
  | cons q rest ih =>
      intro p
      rw [List.getLastD_cons, total_distance_from]
      have tri :
          hypot ((rest.getLastD q).x - p.x) ((rest.getLastD q).y - p.y) ≤
            hypot (q.x - p.x) (q.y - p.y) +
              hypot ((rest.getLastD q).x - q.x) ((rest.getLastD q).y - q.y) := by
        have h := hypot_triangle (q.x - p.x) (q.y - p.y)
          ((rest.getLastD q).x - q.x) ((rest.getLastD q).y - q.y)
        have e1 : q.x - p.x + ((rest.getLastD q).x - q.x) = (rest.getLastD q).x - p.x := by
          ring
        have e2 : q.y - p.y + ((rest.getLastD q).y - q.y) = (rest.getLastD q).y - p.y := by
          ring
        rwa [e1, e2] at h
      exact tri.trans (by have := ih q; linarith)

/-- Over a non-empty trajectory, the straight first-to-last distance is a lower
bound on the accumulated path length. -/
lemma ideal_le_total (p : Sample) (rest : List Sample) :
    hypot (((p :: rest).getLastD ⟨0, 0, 0⟩).x - ((p :: rest).headD ⟨0, 0, 0⟩).x)
        (((p :: rest).getLastD ⟨0, 0, 0⟩).y - ((p :: rest).headD ⟨0, 0, 0⟩).y) ≤
      total_distance (p :: rest) := by
  rw [List.getLastD_cons]
  exact straight_le_total_distance_from rest p

/-- claim C1: for every analyzed trajectory, when `ideal_distance` is strictly
positive we have `ideal_distance <= total_distance`, hence `curvature >= 1`;
when `ideal_distance = 0` the curvature equals exactly 1.  Proved for both the
optimized and the legacy `analyze_single_trial`. -/
theorem C1_total_ge_ideal_and_curvature_ge_one (R : ℝ) (traj : List Sample)
    (tp : ℝ × ℝ) :
    (0 < (analyze_single_trial R traj tp).ideal_distance →
        (analyze_single_trial R traj tp).ideal_distance ≤
            (analyze_single_trial R traj tp).distance ∧
          1 ≤ (analyze_single_trial R traj tp).curvature) ∧
      ((analyze_single_trial R traj tp).ideal_distance = 0 →
        (analyze_single_trial R traj tp).curvature = 1) ∧
      (0 < (analyze_single_trial_legacy R traj tp).ideal_distance →
        (analyze_single_trial_legacy R traj tp).ideal_distance ≤
            (analyze_single_trial_legacy R traj tp).distance ∧
          1 ≤ (analyze_single_trial_legacy R traj tp).curvature) ∧
      ((analyze_single_trial_legacy R traj tp).ideal_distance = 0 →
        (analyze_single_trial_legacy R traj tp).curvature = 1) := by
  by_cases h : traj.length < 2
  · rw [analyze_single_trial_of_short R traj tp h]
    rw [analyze_single_trial_legacy, if_pos h]
    refine ⟨fun h0 => absurd h0 (by norm_num), fun _ => rfl,
      fun h0 => absurd h0 (by norm_num), fun _ => rfl⟩
  · obtain ⟨p, rest, rfl⟩ : ∃ p rest, traj = p :: rest := by
      cases traj with
      | nil => simp at h
      | cons p rest => exact ⟨p, rest, rfl⟩
    have hle := ideal_le_total p rest
    rw [analyze_single_trial_of_long R _ tp h]
    have hopt :
        (0 < (analyze_general R (p :: rest) tp).ideal_distance →
            (analyze_general R (p :: rest) tp).ideal_distance ≤
                (analyze_general R (p :: rest) tp).distance ∧
              1 ≤ (analyze_general R (p :: rest) tp).curvature) ∧
          ((analyze_general R (p :: rest) tp).ideal_distance = 0 →
            (analyze_general R (p :: rest) tp).curvature = 1) := by
      constructor
      · intro hpos
        refine ⟨?_, ?_⟩
        · rw [analyze_general_distance, analyze_general_ideal]
          rw [analyze_general_ideal] at hpos
          exact hle
        · rw [analyze_general_curvature, if_pos hpos]
          rw [analyze_general_ideal] at hpos ⊢
          exact (one_le_div hpos).mpr hle
      · intro hzero
        rw [analyze_general_curvature, hzero]
        simp
    refine ⟨hopt.1, hopt.2, ?_, ?_⟩
    · intro hpos
      refine ⟨?_, ?_⟩
      · rw [analyze_legacy_distance R _ tp h, analyze_legacy_ideal R _ tp h]
        rw [analyze_legacy_ideal R _ tp h] at hpos
        exact hle
      · rw [analyze_legacy_curvature R _ tp h, if_pos hpos]
        rw [analyze_legacy_ideal R _ tp h] at hpos ⊢
        exact (one_le_div hpos).mpr hle
    · intro hzero
      rw [analyze_legacy_curvature R _ tp h, hzero]
      simp

/-- Witness for C1: a concrete two-sample trajectory with
`ideal_distance = 5 > 0`, on which the theorem yields
`ideal_distance <= total_distance` and `curvature >= 1`. -/
theorem C1_witness :
    0 < (analyze_single_trial 20 [⟨0, 0, 0⟩, ⟨3, 4, 1⟩] (3, 4)).ideal_distance ∧
      (analyze_single_trial 20 [⟨0, 0, 0⟩, ⟨3, 4, 1⟩] (3, 4)).ideal_distance ≤
          (analyze_single_trial 20 [⟨0, 0, 0⟩, ⟨3, 4, 1⟩] (3, 4)).distance ∧
        1 ≤ (analyze_single_trial 20 [⟨0, 0, 0⟩, ⟨3, 4, 1⟩] (3, 4)).curvature := by
  have hideal :
      (analyze_single_trial 20 [⟨0, 0, 0⟩, ⟨3, 4, 1⟩] (3, 4)).ideal_distance = 5 := by
    rw [analyze_single_trial_of_long _ _ _ (by simp), analyze_general_ideal]
    show hypot (3 - 0) (4 - 0) = 5
    rw [show (3 : ℝ) - 0 = 3 by ring, show (4 : ℝ) - 0 = 4 by ring]
    exact hypot_three_four
  have hpos : 0 < (analyze_single_trial 20 [⟨0, 0, 0⟩, ⟨3, 4, 1⟩] (3, 4)).ideal_distance := by
    rw [hideal]; norm_num
  exact ⟨hpos, (C1_total_ge_ideal_and_curvature_ge_one 20 [⟨0, 0, 0⟩, ⟨3, 4, 1⟩] (3, 4)).1 hpos⟩

/-! ### Reaction time bounds (C2) -/

/-- The reaction-time scan either reports that the threshold was never reached
(result `0`) or returns `q.t - t0` for some sample `q` of the scanned tail. -/
lemma reaction_time_from_cases :
    ∀ (rest : List Sample) (p : Sample) (acc t0 thr : ℝ),
      reaction_time_from t0 thr acc p rest = 0 ∨
        ∃ q ∈ rest, reaction_time_from t0 thr acc p rest = q.t - t0 := by
  intro rest
  induction rest with
  | nil => intro p acc t0 thr; left; rfl
  | cons q rest ih =>
      intro p acc t0 thr
      rw [reaction_time_from]
      by_cases hthr : thr ≤ acc + hypot (q.x - p.x) (q.y - p.y)
      · rw [if_pos hthr]
        exact Or.inr ⟨q, List.mem_cons_self q rest, rfl⟩
      · rw [if_neg hthr]
        rcases ih q (acc + hypot (q.x - p.x) (q.y - p.y)) t0 thr with h0 | ⟨r, hr, he⟩
        · exact Or.inl h0
        · exact Or.inr ⟨r, List.mem_cons_of_mem q hr, he⟩

/-- In a trajectory whose timestamps are non-decreasing, every sample's
timestamp is bounded by the timestamp of the last sample. -/
lemma le_getLastD_of_sorted :
    ∀ (l : List Sample) (d q : Sample),
      List.Pairwise (fun a b : Sample => a.t ≤ b.t) l → q ∈ l →
        q.t ≤ (l.getLastD d).t := by
  intro l
  induction l with
  | nil => intro d q _ hq; cases hq
  | cons a l ih =>
      intro d q hp hq
      rw [List.getLastD_cons]
      rcases List.pairwise_cons.mp hp with ⟨hrel, hp'⟩
      rcases List.mem_cons.mp hq with rfl | hq'
      · rcases List.getLastD_mem_cons l q with hmem
        rcases List.mem_cons.mp hmem with he | hmem'
        · rw [he]
        · exact hrel _ hmem'
      · exact ih a q hp' hq'

/-- claim C2: the analyzer's `reaction_time` lies between `0` and the
trial's `time_elapsed`, for every trajectory satisfying the data-model
ordering invariant (non-decreasing timestamps). -/
theorem C2_reaction_time_bounds (R : ℝ) (traj : List Sample) (tp : ℝ × ℝ)
    (hsort : List.Pairwise (fun a b : Sample => a.t ≤ b.t) traj) :
    0 ≤ (analyze_single_trial R traj tp).reaction_time ∧
      (analyze_single_trial R traj tp).reaction_time ≤
        (analyze_single_trial R traj tp).time := by
  by_cases h : traj.length < 2
  · rw [analyze_single_trial_of_short R traj tp h]
    norm_num
  · obtain ⟨p, rest, rfl⟩ : ∃ p rest, traj = p :: rest := by
      cases traj with
      | nil => simp at h
      | cons p rest => exact ⟨p, rest, rfl⟩
    rw [analyze_single_trial_of_long R _ tp h, analyze_general_reaction_time,
      analyze_general_time]
    rcases List.pairwise_cons.mp hsort with ⟨hrel, _⟩
    have hlast : p.t ≤ ((p :: rest).getLastD ⟨0, 0, 0⟩).t :=
      le_getLastD_of_sorted _ _ p hsort (List.mem_cons_self p rest)
    have htime :
        (0 : ℝ) ≤
          if ((p :: rest).headD ⟨0, 0, 0⟩).t < ((p :: rest).getLastD ⟨0, 0, 0⟩).t then
            ((p :: rest).getLastD ⟨0, 0, 0⟩).t - ((p :: rest).headD ⟨0, 0, 0⟩).t
          else 0 := by
      by_cases hc : ((p :: rest).headD ⟨0, 0, 0⟩).t < ((p :: rest).getLastD ⟨0, 0, 0⟩).t
      · rw [if_pos hc]; linarith
      · rw [if_neg hc]
    rw [reaction_time_of]
    rcases reaction_time_from_cases rest p 0 p.t 5 with h0 | ⟨q, hq, he⟩
    · rw [h0]
      exact ⟨le_refl 0, htime⟩
    · rw [he]
      have hq_lo : p.t ≤ q.t := hrel q hq
      have hq_hi : q.t ≤ ((p :: rest).getLastD ⟨0, 0, 0⟩).t :=
        le_getLastD_of_sorted _ _ q hsort (List.mem_cons_of_mem p hq)
      constructor
      · linarith
      · rw [List.headD_cons]
        by_cases hc : p.t < ((p :: rest).getLastD ⟨0, 0, 0⟩).t
        · rw [if_pos hc]
          linarith
        · rw [if_neg hc]
          push_neg at hc
          linarith

/-- Witness for C2: a concrete time-ordered two-sample trajectory on which the
theorem yields `0 <= reaction_time <= time_elapsed`. -/
theorem C2_witness :
    List.Pairwise (fun a b : Sample => a.t ≤ b.t) [⟨0, 0, 0⟩, ⟨10, 0, 1⟩] ∧
      (0 ≤ (analyze_single_trial 20 [⟨0, 0, 0⟩, ⟨10, 0, 1⟩] (10, 0)).reaction_time ∧
        (analyze_single_trial 20 [⟨0, 0, 0⟩, ⟨10, 0, 1⟩] (10, 0)).reaction_time ≤
          (analyze_single_trial 20 [⟨0, 0, 0⟩, ⟨10, 0, 1⟩] (10, 0)).time) := by
  have hsort : List.Pairwise (fun a b : Sample => a.t ≤ b.t) [⟨0, 0, 0⟩, ⟨10, 0, 1⟩] := by
    refine List.pairwise_cons.mpr ⟨?_, ?_⟩
    · intro b hb
      rcases List.mem_singleton.mp hb with rfl
      show (0 : ℝ) ≤ 1
      norm_num
    · exact List.pairwise_singleton _ _
  exact ⟨hsort, C2_reaction_time_bounds 20 [⟨0, 0, 0⟩, ⟨10, 0, 1⟩] (10, 0) hsort⟩

/-! ### Degenerate trajectories (C3) -/

/-- claim C3 (amended): for a trajectory with fewer than 2 samples, both
analyzers return all distance/speed/time/difficulty/throughput fields `0`,
curvature `1` and reaction time `0` (the latter in the optimized variant, the
only one with that field); the optimized variant preserves the input
trajectory as-is, while the legacy variant (`src/mouse_tracker.py`) returns an
empty trajectory list instead. -/
theorem C3_degenerate_result (R : ℝ) (traj : List Sample) (tp : ℝ × ℝ)
    (h : traj.length < 2) :
    analyze_single_trial R traj tp =
      { time := 0, distance := 0, speed := 0, curvature := 1, ideal_distance := 0,
        target_x := tp.1, target_y := tp.2, id := 0, throughput := 0,
        trajectory := traj, peak_velocity := 0, reaction_time := 0 } ∧
      analyze_single_trial_legacy R traj tp =
        { time := 0, distance := 0, speed := 0, curvature := 1, ideal_distance := 0,
          target_x := tp.1, target_y := tp.2, id := 0, throughput := 0,
          trajectory := [] } := by
  constructor
  · rw [analyze_single_trial, if_pos h]
  · rw [analyze_single_trial_legacy, if_pos h]

/-- Witness for C3: the single-sample trajectory `[(500, 300, 0.0)]`. -/
theorem C3_witness :
    ([(⟨500, 300, 0⟩ : Sample)].length < 2) ∧
      (analyze_single_trial 20 [⟨500, 300, 0⟩] (540, 300) =
        { time := 0, distance := 0, speed := 0, curvature := 1, ideal_distance := 0,
          target_x := 540, target_y := 300, id := 0, throughput := 0,
          trajectory := [⟨500, 300, 0⟩], peak_velocity := 0, reaction_time := 0 } ∧
      analyze_single_trial_legacy 20 [⟨500, 300, 0⟩] (540, 300) =
        { time := 0, distance := 0, speed := 0, curvature := 1, ideal_distance := 0,
          target_x := 540, target_y := 300, id := 0, throughput := 0,
          trajectory := [] }) := by
  exact ⟨by norm_num,
    C3_degenerate_result 20 [⟨500, 300, 0⟩] (540, 300) (by norm_num)⟩

/-- Counterexample for C3 as stated: on a single-sample input the legacy
variant's result trajectory is empty, not the input preserved with length 1. -/
theorem C3_counterexample :
    (analyze_single_trial_legacy 20 [⟨500, 300, 0⟩] (540, 300)).trajectory = [] ∧
      (analyze_single_trial_legacy 20 [⟨500, 300, 0⟩] (540, 300)).trajectory ≠
        [⟨500, 300, 0⟩] := by
  have he : (analyze_single_trial_legacy 20 [⟨500, 300, 0⟩] (540, 300)).trajectory = [] := by
    rw [analyze_single_trial_legacy, if_pos (by norm_num)]
  refine ⟨he, ?_⟩
  rw [he]
  simp

/-! ### Sample throttling (C5) -/

/-- claim C5: while recording, a motion observation is accepted iff
`now - last_sample_time >= min_sample_interval`; acceptance appends the sample
and sets `last_sample_time` to the accepted sample's timestamp; rejection
leaves the whole recording state (trajectory and `last_sample_time`)
unchanged. -/
theorem C5_sample_throttle (min_sample_interval : ℝ) (st : RecState)
    (ex ey now : ℝ) :
    (min_sample_interval ≤ now - st.last_sample_time →
        record_movement true min_sample_interval st ex ey now =
          { trajectory_data := st.trajectory_data ++ [⟨ex, ey, now⟩],
            last_sample_time := now }) ∧
      (¬ min_sample_interval ≤ now - st.last_sample_time →
        record_movement true min_sample_interval st ex ey now = st) := by
  constructor
  · intro h
    simp [record_movement, h]
  · intro h
    simp [record_movement, h]

/-- Witness for C5: with `min_sample_interval = 0.01`, an empty state at time 0
and a sample at time 0.05, the sample is accepted and the state updated. -/
theorem C5_witness :
    ((1 / 100 : ℝ) ≤ 5 / 100 - (⟨[], 0⟩ : RecState).last_sample_time) ∧
      record_movement true (1 / 100) ⟨[], 0⟩ 5 6 (5 / 100) =
        { trajectory_data := [⟨5, 6, 5 / 100⟩], last_sample_time := 5 / 100 } := by
  have h : (1 / 100 : ℝ) ≤ 5 / 100 - (⟨[], 0⟩ : RecState).last_sample_time := by
    norm_num
  refine ⟨h, ?_⟩
  have he := (C5_sample_throttle (1 / 100) ⟨[], 0⟩ 5 6 (5 / 100)).1 h
  simpa using he

/-! ### Parameter validation (C8) -/

/-- claim C8: configuration validation substitutes defaults instead of
failing: a trial-count entry that is not a positive integer yields 10, a
sample-interval entry that is not a positive rational yields 0.01, and valid
entries pass through unchanged. -/
theorem C8_parse_params_defaults (ti : Option ℤ) (si : Option ℚ) :
    (∀ n : ℤ, ti = some n → 0 < n → (parse_params ti si).1 = n) ∧
      ((∀ n : ℤ, ti = some n → n ≤ 0) → (parse_params ti si).1 = 10) ∧
      (∀ s : ℚ, si = some s → 0 < s → (parse_params ti si).2 = s) ∧
      ((∀ s : ℚ, si = some s → s ≤ 0) → (parse_params ti si).2 = 1 / 100) := by
  refine ⟨?_, ?_, ?_, ?_⟩
  · intro n hn hpos
    subst hn
    show parse_trials (some n) = n
    rw [parse_trials, if_neg (by omega)]
  · intro hinv
    cases ti with
    | none => rfl
    | some n =>
        show parse_trials (some n) = 10
        rw [parse_trials, if_pos (hinv n rfl)]
  · intro s hs hpos
    subst hs
    show parse_interval (some s) = s
    rw [parse_interval, if_neg (by linarith)]
  · intro hinv
    cases si with
    | none => rfl
    | some s =>
        show parse_interval (some s) = 1 / 100
        rw [parse_interval, if_pos (hinv s rfl)]

/-- Witness for C8: a valid trial count `5` passes through, and an unparseable
sample interval falls back to `0.01`. -/
theorem C8_witness :
    (parse_params (some 5) none).1 = 5 ∧
      (parse_params (some 5) none).2 = 1 / 100 := by
  refine ⟨(C8_parse_params_defaults (some 5) none).1 5 rfl (by norm_num), ?_⟩
  exact (C8_parse_params_defaults (some 5) none).2.2.2 (fun s h => by cases h)

/-! ### Completed trials always have at least two samples (C10) -/

lemma record_movement_length_le (b : Bool) (minInt : ℝ) (st : RecState)
    (ex ey now : ℝ) :
    st.trajectory_data.length ≤
      (record_movement b minInt st ex ey now).trajectory_data.length := by
  rw [record_movement]
  by_cases hb : b
  · rw [if_pos hb]
    by_cases hc : minInt ≤ now - st.last_sample_time
    · rw [if_pos hc]
      simp
    · rw [if_neg hc]
  · rw [if_neg hb]

lemma foldl_record_movement_length_le (minInt : ℝ) :
    ∀ (moves : List (ℝ × ℝ × ℝ)) (st : RecState),
      st.trajectory_data.length ≤
        (moves.foldl
            (fun st m => record_movement true minInt st m.1 m.2.1 m.2.2)
            st).trajectory_data.length := by
  intro moves
  induction moves with
  | nil => intro st; exact le_refl _
  | cons m ms ih =>
      intro st
      exact (record_movement_length_le true minInt st m.1 m.2.1 m.2.2).trans
        (ih (record_movement true minInt st m.1 m.2.1 m.2.2))

/-- claim C10: the trajectory of every completed trial — seeded with the
reference point at spawn time, extended by throttled motion samples, and
closed by the unconditionally appended hit sample — has at least 2 samples,
so `analyze_single_trial` always takes its general (non-degenerate) branch on
it. -/
theorem C10_completed_trial_nondegenerate (ref : ℝ × ℝ)
    (start_time min_sample_interval : ℝ) (moves : List (ℝ × ℝ × ℝ))
    (hit : Sample) (R : ℝ) (tp : ℝ × ℝ) :
    2 ≤ (completed_trajectory ref start_time min_sample_interval moves hit).length ∧
      analyze_single_trial R
          (completed_trajectory ref start_time min_sample_interval moves hit) tp =
        analyze_general R
          (completed_trajectory ref start_time min_sample_interval moves hit) tp := by
  have hlen :
      2 ≤ (completed_trajectory ref start_time min_sample_interval moves hit).length := by
    rw [completed_trajectory, List.length_append]
    have hinit :=
      foldl_record_movement_length_le min_sample_interval moves
        { trajectory_data := spawn_trajectory ref start_time,
          last_sample_time := start_time }
    have hone : (spawn_trajectory ref start_time).length = 1 := rfl
    rw [hone] at hinit
    simp only [List.length_cons, List.length_nil]
    omega
  exact ⟨hlen, analyze_single_trial_of_long R _ tp (by omega)⟩

/-! ### Bounded retry of the free placement (C7) -/

lemma far_from_loop_spec (draws : ℕ → ℤ × ℤ) (pos : ℤ × ℤ) (min_dist : ℝ) :
    ∀ (fuel k : ℕ), fuel + k = 31 → k ≤ 30 →
      ∃ i, k ≤ i ∧ i ≤ 30 ∧ far_from_loop draws pos min_dist fuel k = draws i ∧
        (∀ j, k ≤ j → j < i → ¬ min_dist ≤ draw_dist draws pos j) ∧
        (min_dist ≤ draw_dist draws pos i ∨ i = 30) := by
  intro fuel
  induction fuel with
  | zero => intro k hsum hk; omega
  | succ fuel ih =>
      intro k hsum hk
      rw [far_from_loop]
      by_cases hc : min_dist ≤ draw_dist draws pos k ∨ 30 < k + 1
      · rw [if_pos hc]
        refine ⟨k, le_refl k, hk, rfl, fun j hj hj' => absurd hj' (by omega), ?_⟩
        rcases hc with h | h
        · exact Or.inl h
        · exact Or.inr (by omega)
      · rw [if_neg hc]
        push_neg at hc
        obtain ⟨hd, hk1⟩ := hc
        obtain ⟨i, hki, hi30, heq, hrej, hacc⟩ := ih (k + 1) (by omega) (by omega)
        refine ⟨i, by omega, hi30, heq, ?_, hacc⟩
        intro j hj hji
        rcases Nat.eq_or_lt_of_le hj with he | hlt
        · rw [he] at hd
          exact not_le.mpr hd
        · exact hrej j (by omega) hji

/-- claim C7: `_random_target_far_from` always returns within 31 draws: the
result is the `(k+1)`-th draw for some `k <= 30`, every earlier draw was
rejected for being closer than `min_dist`, and the accepted draw either meets
the separation or is the draw made after 30 failed attempts (accepted
unconditionally). -/
theorem C7_random_target_far_from_bounded (draws : ℕ → ℤ × ℤ) (pos : ℤ × ℤ)
    (min_dist : ℝ) :
    ∃ k ≤ 30, random_target_far_from draws pos min_dist = draws k ∧
      (∀ j < k, ¬ min_dist ≤ draw_dist draws pos j) ∧
      (min_dist ≤ draw_dist draws pos k ∨ k = 30) := by
  obtain ⟨i, _, hi30, heq, hrej, hacc⟩ :=
    far_from_loop_spec draws pos min_dist 31 0 rfl (by omega)
  exact ⟨i, hi30, heq, fun j hj => hrej j (by omega) hj, hacc⟩

/-! ### Controlled target placement (C4) -/

lemma preset_search_spec (cw ch margin : ℤ) (ref : ℤ × ℤ) (dist : ℝ)
    (angles : ℕ → ℝ) :
    ∀ (fuel k : ℕ),
      (∃ i, k ≤ i ∧ i < k + fuel ∧
          in_margin cw ch margin (preset_candidate ref dist (angles i)) ∧
          preset_search cw ch margin ref dist angles fuel k =
            some (preset_candidate ref dist (angles i)) ∧
          ∀ j, k ≤ j → j < i →
            ¬ in_margin cw ch margin (preset_candidate ref dist (angles j))) ∨
        ((∀ i, k ≤ i → i < k + fuel →
            ¬ in_margin cw ch margin (preset_candidate ref dist (angles i))) ∧
          preset_search cw ch margin ref dist angles fuel k = none) := by
  intro fuel
  induction fuel with
  | zero =>
      intro k
      exact Or.inr ⟨fun i hi hi' => absurd hi' (by omega), rfl⟩
  | succ fuel ih =>
      intro k
      rw [preset_search]
      by_cases hc : in_margin cw ch margin (preset_candidate ref dist (angles k))
      · rw [if_pos hc]
        exact Or.inl ⟨k, le_refl k, by omega, hc, rfl,
          fun j hj hj' => absurd hj' (by omega)⟩
      · rw [if_neg hc]
        rcases ih (k + 1) with ⟨i, hki, hlt, him, heq, hrej⟩ | ⟨hall, heq⟩
        · refine Or.inl ⟨i, by omega, by omega, him, heq, ?_⟩
          intro j hj hji
          rcases Nat.eq_or_lt_of_le hj with he | hgt
          · rw [he] at hc
            exact hc
          · exact hrej j (by omega) hji
        · refine Or.inr ⟨?_, heq⟩
          intro i hi hi'
          rcases Nat.eq_or_lt_of_le hi with he | hgt
          · rw [he] at hc
            exact hc
          · exact hall i (by omega) (by omega)

/-- claim C4 (amended): the controlled placement uses
`radius = max(2, int(width / 2))` — Python `int(...)` truncation, not
`round` — and `margin = 10 + radius`; it makes at most 36 angle attempts,
accepts the first candidate `(int(ref.x + dist cos θ), int(ref.y + dist sin θ))`
whose coordinates lie within `[margin, dimension - margin]` on both axes, and
falls back to the free placement when all 36 attempts fail. -/
theorem C4_spawn_target_preset_policy (cw ch : ℤ) (ref : ℤ × ℤ)
    (dist width : ℝ) (angles : ℕ → ℝ) (fallback : ℤ × ℤ) :
    (∃ k < 36,
        in_margin cw ch (10 + max 2 (pyInt (width / 2)))
            (preset_candidate ref dist (angles k)) ∧
          spawn_target_preset cw ch ref dist width angles fallback =
            preset_candidate ref dist (angles k) ∧
          ∀ j < k, ¬ in_margin cw ch (10 + max 2 (pyInt (width / 2)))
              (preset_candidate ref dist (angles j))) ∨
      ((∀ k < 36, ¬ in_margin cw ch (10 + max 2 (pyInt (width / 2)))
            (preset_candidate ref dist (angles k))) ∧
        spawn_target_preset cw ch ref dist width angles fallback = fallback) := by
  rcases preset_search_spec cw ch (10 + max 2 (pyInt (width / 2))) ref dist angles 36 0
    with ⟨i, _, hlt, him, heq, hrej⟩ | ⟨hall, heq⟩
  · left
    refine ⟨i, by omega, him, ?_, fun j hj => hrej j (by omega) hj⟩
    rw [spawn_target_preset, heq]
  · right
    refine ⟨fun k hk => hall k (by omega) (by omega), ?_⟩
    rw [spawn_target_preset, heq]

/-- Counterexample for C4 as stated: with plan width 7, the code's radius is
`max(2, int(7 / 2)) = 3` (margin 13), not `max(2, round(7 / 2)) = 4`
(margin 14).  From reference `(10, 300)` with distance 3 and first angle 0,
the code accepts the candidate `(13, 300)` — not the fallback — whose
x-coordinate violates the margin bound asserted by the claim. -/
theorem C4_counterexample :
    spawn_target_preset 1000 600 (10, 300) 3 7 (fun _ => 0) (500, 300) = (13, 300) ∧
      ¬ ((10 + max 2 (round ((7 : ℝ) / 2)) : ℤ) ≤ 13) ∧
      ((13, 300) : ℤ × ℤ) ≠ (500, 300) := by
  have hpy7 : pyInt ((7 : ℝ) / 2) = 3 := by
    rw [pyInt, if_pos (by norm_num)]
    norm_num
  have hmargin : (10 + max 2 (pyInt ((7 : ℝ) / 2)) : ℤ) = 13 := by
    rw [hpy7]
    decide
  have h1 : pyInt ((((10, 300) : ℤ × ℤ).1 : ℝ) + 3 * 1) = 13 := by
    rw [pyInt, if_pos (by norm_num)]
    norm_num
  have h2 : pyInt ((((10, 300) : ℤ × ℤ).2 : ℝ) + 3 * 0) = 300 := by
    rw [pyInt, if_pos (by norm_num)]
    norm_num
  have hcand : preset_candidate ((10, 300) : ℤ × ℤ) 3 0 = (13, 300) := by
    rw [preset_candidate, Real.cos_zero, Real.sin_zero, h1, h2]
  have hin : in_margin 1000 600 13 ((13, 300) : ℤ × ℤ) := by
    rw [in_margin]
    refine ⟨by norm_num, by norm_num, by norm_num, by norm_num⟩
  have hsearch :
      preset_search 1000 600 13 ((10, 300) : ℤ × ℤ) 3 (fun _ => 0) 36 0 =
        some ((13, 300) : ℤ × ℤ) := by
    rw [show (36 : ℕ) = 35 + 1 from rfl, preset_search]
    rw [hcand, if_pos hin]
  have hspawn :
      spawn_target_preset 1000 600 (10, 300) 3 7 (fun _ => 0) (500, 300) = (13, 300) := by
    rw [spawn_target_preset, hmargin, hsearch]
  refine ⟨hspawn, ?_, by decide⟩
  have hr : round ((7 : ℝ) / 2) = 4 := by
    norm_num [round_eq]
  rw [hr]
  decide

/-! ### The concrete three-sample scenario (C9) -/

lemma analyze_general_speed (R : ℝ) (traj : List Sample) (tp : ℝ × ℝ) :
    (analyze_general R traj tp).speed =
      if 0 < (analyze_general R traj tp).time then
        (analyze_general R traj tp).distance / (analyze_general R traj tp).time
      else 0 := rfl

lemma analyze_general_id (R : ℝ) (traj : List Sample) (tp : ℝ × ℝ) :
    (analyze_general R traj tp).id =
      if 0 < 2 * R then
        Real.logb 2 ((analyze_general R traj tp).ideal_distance / (2 * R) + 1)
      else 0 := rfl

lemma analyze_general_throughput (R : ℝ) (traj : List Sample) (tp : ℝ × ℝ) :
    (analyze_general R traj tp).throughput =
      if 0 < (analyze_general R traj tp).time then
        (analyze_general R traj tp).id / (analyze_general R traj tp).time
      else 0 := rfl

lemma hypot_twenty : hypot 20 0 = 20 := hypot_of_nonneg_left 20 (by norm_num)

lemma hypot_forty : hypot 40 0 = 40 := hypot_of_nonneg_left 40 (by norm_num)

/-- claim C9: on the trajectory
`[(500, 300, 0.000), (520, 300, 0.050), (540, 300, 0.100)]` with target
`(540, 300)` and radius 20, the analyzer reports `total_distance = 40`,
`ideal_distance = 40`, `curvature = 1`, `time_elapsed = 0.1`,
`avg_speed = 400`, `ID = log2(40/40 + 1) = 1` and `throughput = 10`. -/
theorem C9_scenario_values :
    (analyze_single_trial 20
        [⟨500, 300, 0⟩, ⟨520, 300, 0.05⟩, ⟨540, 300, 0.1⟩] (540, 300)).distance = 40 ∧
      (analyze_single_trial 20
        [⟨500, 300, 0⟩, ⟨520, 300, 0.05⟩, ⟨540, 300, 0.1⟩] (540, 300)).ideal_distance = 40 ∧
      (analyze_single_trial 20
        [⟨500, 300, 0⟩, ⟨520, 300, 0.05⟩, ⟨540, 300, 0.1⟩] (540, 300)).curvature = 1 ∧
      (analyze_single_trial 20
        [⟨500, 300, 0⟩, ⟨520, 300, 0.05⟩, ⟨540, 300, 0.1⟩] (540, 300)).time = 0.1 ∧
      (analyze_single_trial 20
        [⟨500, 300, 0⟩, ⟨520, 300, 0.05⟩, ⟨540, 300, 0.1⟩] (540, 300)).speed = 400 ∧
      (analyze_single_trial 20
        [⟨500, 300, 0⟩, ⟨520, 300, 0.05⟩, ⟨540, 300, 0.1⟩] (540, 300)).id = 1 ∧
      (analyze_single_trial 20
        [⟨500, 300, 0⟩, ⟨520, 300, 0.05⟩, ⟨540, 300, 0.1⟩] (540, 300)).throughput = 10 := by
  rw [analyze_single_trial_of_long 20
    [⟨500, 300, 0⟩, ⟨520, 300, 0.05⟩, ⟨540, 300, 0.1⟩] (540, 300) (by norm_num)]
  have htot :
      (analyze_general 20
          [⟨500, 300, 0⟩, ⟨520, 300, 0.05⟩, ⟨540, 300, 0.1⟩] (540, 300)).distance = 40 := by
    rw [analyze_general_distance]
    show hypot (520 - 500) (300 - 300) + (hypot (540 - 520) (300 - 300) + 0) = 40
    rw [show (520 : ℝ) - 500 = 20 by norm_num, show (540 : ℝ) - 520 = 20 by norm_num,
      show (300 : ℝ) - 300 = 0 by norm_num, hypot_twenty]
    norm_num
  have hideal :
      (analyze_general 20
          [⟨500, 300, 0⟩, ⟨520, 300, 0.05⟩, ⟨540, 300, 0.1⟩] (540, 300)).ideal_distance = 40 := by
    rw [analyze_general_ideal]
    show hypot (540 - 500) (300 - 300) = 40
    rw [show (540 : ℝ) - 500 = 40 by norm_num, show (300 : ℝ) - 300 = 0 by norm_num,
      hypot_forty]
  have htime :
      (analyze_general 20
          [⟨500, 300, 0⟩, ⟨520, 300, 0.05⟩, ⟨540, 300, 0.1⟩] (540, 300)).time = 0.1 := by
    rw [analyze_general_time]
    show (if (0 : ℝ) < 0.1 then (0.1 : ℝ) - 0 else 0) = 0.1
    rw [if_pos (by norm_num)]
    norm_num
  have hcurv :
      (analyze_general 20
          [⟨500, 300, 0⟩, ⟨520, 300, 0.05⟩, ⟨540, 300, 0.1⟩] (540, 300)).curvature = 1 := by
    rw [analyze_general_curvature, hideal, if_pos (by norm_num : (0 : ℝ) < 40), htot]
    norm_num
  have hid :
      (analyze_general 20
          [⟨500, 300, 0⟩, ⟨520, 300, 0.05⟩, ⟨540, 300, 0.1⟩] (540, 300)).id = 1 := by
    rw [analyze_general_id, hideal, if_pos (by norm_num : (0 : ℝ) < 2 * 20)]
    rw [show (40 : ℝ) / (2 * 20) + 1 = 2 by norm_num]
    exact Real.logb_self_eq_one (by norm_num)
  have hspeed :
      (analyze_general 20
          [⟨500, 300, 0⟩, ⟨520, 300, 0.05⟩, ⟨540, 300, 0.1⟩] (540, 300)).speed = 400 := by
    rw [analyze_general_speed, htime, htot, if_pos (by norm_num : (0 : ℝ) < 0.1)]
    norm_num
  have htput :
      (analyze_general 20
          [⟨500, 300, 0⟩, ⟨520, 300, 0.05⟩, ⟨540, 300, 0.1⟩] (540, 300)).throughput = 10 := by
    rw [analyze_general_throughput, htime, hid, if_pos (by norm_num : (0 : ℝ) < 0.1)]
    norm_num
  exact ⟨htot, hideal, hcurv, htime, hspeed, hid, htput⟩

/-! ### The preset trial plan (C6) -/

/-- The loop `plan_loop` always produces the accumulator followed by the concatenation
of the consecutive shuffled blocks it consumed. -/
lemma plan_loop_structure {α : Type*} (shuffles : ℕ → List α) (N : ℕ) :
    ∀ (fuel i : ℕ) (acc : List α),
      ∃ m, plan_loop shuffles N fuel i acc =
        acc ++ ((List.range m).map fun j => shuffles (i + j)).flatten := by
  intro fuel
  induction fuel with
  | zero => intro i acc; exact ⟨0, by simp [plan_loop]⟩
  | succ fuel ih =>
      intro i acc
      rw [plan_loop]
      by_cases hc : acc.length < N
      · rw [if_pos hc]
        obtain ⟨m, hm⟩ := ih (i + 1) (acc ++ shuffles i)
        refine ⟨m + 1, ?_⟩
        rw [hm, List.append_assoc]
        congr 1
        rw [List.range_succ_eq_map, List.map_cons, List.flatten_cons, List.map_map]
        have hfun : ((fun j => shuffles (i + j)) ∘ Nat.succ) =
            fun j => shuffles (i + 1 + j) := by
          funext j
          show shuffles (i + (j + 1)) = shuffles (i + 1 + j)
          congr 1
          omega
        rw [hfun]
        simp
      · rw [if_neg hc]
        exact ⟨0, by simp⟩

/-- When every shuffled block is non-empty, `max_trials + 1` passes are enough
for `plan_loop` to reach the requested length. -/
lemma plan_loop_length_ge {α : Type*} (shuffles : ℕ → List α) (N : ℕ)
    (hne : ∀ j, 1 ≤ (shuffles j).length) :
    ∀ (fuel i : ℕ) (acc : List α), N ≤ acc.length + fuel →
      N ≤ (plan_loop shuffles N fuel i acc).length := by
  intro fuel
  induction fuel with
  | zero =>
      intro i acc h
      rw [plan_loop]
      omega
  | succ fuel ih =>
      intro i acc h
      rw [plan_loop]
      by_cases hc : acc.length < N
      · rw [if_pos hc]
        apply ih (i + 1)
        rw [List.length_append]
        have := hne i
        omega
      · rw [if_neg hc]
        omega

lemma flatten_length_of_const {α : Type*} (K : ℕ) :
    ∀ (blocks : List (List α)), (∀ b ∈ blocks, b.length = K) →
      blocks.flatten.length = K * blocks.length := by
  intro blocks
  induction blocks with
  | nil => intro _; simp
  | cons b bs ih =>
      intro h
      rw [List.flatten_cons, List.length_append,
        ih fun x hx => h x (List.mem_cons_of_mem b hx),
        h b (List.mem_cons_self b bs), List.length_cons, Nat.mul_succ]
      omega

/-- The `BEq` instance `ℚ × ℚ` gets by component-wise `==` agrees with the one
derived from decidable equality, so the two possible readings of `List.count`
coincide. -/
lemma beq_prod_eq (b c : ℚ × ℚ) :
    (@BEq.beq _ instBEqProd b c) = (@BEq.beq _ instBEqOfDecidableEq b c) := by
  show (b.1 == c.1 && b.2 == c.2) = decide (b = c)
  by_cases h : b = c
  · subst h
    simp
  · by_cases h1 : b.1 = c.1
    · by_cases h2 : b.2 = c.2
      · exact absurd (Prod.ext h1 h2) h
      · simp [h2, h]
    · simp [h1, h]

lemma count_prod_instances (c : ℚ × ℚ) :
    ∀ l : List (ℚ × ℚ),
      @List.count _ instBEqProd c l = @List.count _ instBEqOfDecidableEq c l := by
  intro l
  induction l with
  | nil => rfl
  | cons b bs ih =>
      rw [@List.count_cons _ instBEqProd, @List.count_cons _ instBEqOfDecidableEq,
        ih, beq_prod_eq]

/-- Counting a fixed combination in an `N`-prefix of a concatenation of
permutations of a duplicate-free list `combos`: the count is squeezed between
`N / K` and the ceiling `(N + K - 1) / K`, where `K = combos.length`. -/
lemma count_take_flatten_bounds {α : Type*} [DecidableEq α] (combos : List α)
    (hnd : combos.Nodup) (c : α) (hc : c ∈ combos) :
    ∀ (blocks : List (List α)) (N : ℕ),
      (∀ b ∈ blocks, b.Perm combos) → N ≤ combos.length * blocks.length →
        N / combos.length ≤ ((blocks.flatten.take N).count c) ∧
          (blocks.flatten.take N).count c ≤
            (N + combos.length - 1) / combos.length := by
  have hKpos : 0 < combos.length := List.length_pos.mpr (List.ne_nil_of_mem hc)
  intro blocks
  induction blocks with
  | nil =>
      intro N _ hN
      have hN0 : N = 0 := by simpa using hN
      subst hN0
      simp
  | cons b bs ih =>
      intro N hb hN
      have hbK : b.length = combos.length :=
        (hb b (List.mem_cons_self b bs)).length_eq
      have hcount_b : b.count c = 1 := by
        rw [(hb b (List.mem_cons_self b bs)).count_eq]
        exact List.count_eq_one_of_mem hnd hc
      rw [List.flatten_cons, List.take_append_eq_append_take, List.count_append]
      by_cases hNK : N ≤ combos.length
      · have hz : N - b.length = 0 := by omega
        rw [hz, List.take_zero, List.count_nil]
        constructor
        · by_cases hNKeq : N = combos.length
          · have : b.take N = b := by
              rw [hNKeq, ← hbK, List.take_length]
            rw [this, hcount_b, hNKeq, Nat.div_self hKpos]
          · have : N / combos.length = 0 := Nat.div_eq_of_lt (by omega)
            omega
        · have hle1 : (b.take N).count c ≤ 1 := by
            rw [← hcount_b]
            exact (List.take_sublist N b).count_le c
          by_cases hN0 : N = 0
          · subst hN0
            simp
          · have hK1 : 1 ≤ (N + combos.length - 1) / combos.length := by
              rw [Nat.le_div_iff_mul_le hKpos]
              omega
            omega
      · have hrec := ih (N - combos.length)
          (fun b' hb' => hb b' (List.mem_cons_of_mem b hb'))
          (by
            rw [List.length_cons, Nat.mul_succ] at hN
            omega)
        have htake : b.take N = b := List.take_of_length_le (by omega)
        rw [htake, hcount_b, hbK]
        have hdiv : N / combos.length = (N - combos.length) / combos.length + 1 :=
          Nat.div_eq_sub_div hKpos (by omega)
        have hdivc :
            (N + combos.length - 1) / combos.length =
              ((N - combos.length) + combos.length - 1) / combos.length + 1 := by
          have harith : N + combos.length - 1 =
              ((N - combos.length) + combos.length - 1) + combos.length := by
            omega
          rw [harith, Nat.add_div_right _ hKpos]
        omega

/-- claim C6: for `N >= 1` trials and a non-empty, duplicate-free combination
list, `prepare_preset_plan` yields a plan of length exactly `N` that is a
truncated concatenation of shuffled copies of the cross-product list, in which
every combination occurs either `N / K` (floor) or `(N + K - 1) / K` (ceiling)
times, `K` being the number of combinations. -/
theorem C6_prepare_preset_plan_balanced (preset_distances preset_widths : List ℚ)
    (N : ℕ) (shuffle : ℕ → List (ℚ × ℚ) → List (ℚ × ℚ)) (hN : 1 ≤ N)
    (hne : combos_of preset_distances preset_widths ≠ [])
    (hnd : (combos_of preset_distances preset_widths).Nodup)
    (hperm : ∀ i, (shuffle i (combos_of preset_distances preset_widths)).Perm
        (combos_of preset_distances preset_widths)) :
    (prepare_preset_plan preset_distances preset_widths N shuffle).length = N ∧
      (∃ m, prepare_preset_plan preset_distances preset_widths N shuffle =
        (((List.range m).map fun i =>
            shuffle i (combos_of preset_distances preset_widths)).flatten).take N) ∧
      ∀ c ∈ combos_of preset_distances preset_widths,
        (prepare_preset_plan preset_distances preset_widths N shuffle).count c =
            N / (combos_of preset_distances preset_widths).length ∨
          (prepare_preset_plan preset_distances preset_widths N shuffle).count c =
            (N + (combos_of preset_distances preset_widths).length - 1) /
              (combos_of preset_distances preset_widths).length := by
  have hKpos : 0 < (combos_of preset_distances preset_widths).length :=
    List.length_pos.mpr hne
  have hblock_len : ∀ j,
      1 ≤ (shuffle j (combos_of preset_distances preset_widths)).length := by
    intro j
    rw [(hperm j).length_eq]
    exact hKpos
  obtain ⟨m, hm⟩ := plan_loop_structure
    (fun i => shuffle i (combos_of preset_distances preset_widths)) N (N + 1) 0 []
  simp only [List.nil_append, Nat.zero_add] at hm
  have hlen_ge :
      N ≤ (plan_loop
          (fun i => shuffle i (combos_of preset_distances preset_widths)) N
          (N + 1) 0 []).length :=
    plan_loop_length_ge _ N hblock_len (N + 1) 0 [] (by simp)
  have hperm_blocks :
      ∀ b ∈ (List.range m).map
          (fun i => shuffle i (combos_of preset_distances preset_widths)),
        b.Perm (combos_of preset_distances preset_widths) := by
    intro b hbmem
    obtain ⟨i, _, rfl⟩ := List.mem_map.mp hbmem
    exact hperm i
  have hflat_len :
      ((List.range m).map
          (fun i => shuffle i (combos_of preset_distances preset_widths))).flatten.length =
        (combos_of preset_distances preset_widths).length * m := by
    rw [flatten_length_of_const (combos_of preset_distances preset_widths).length _
      (fun b hbmem => (hperm_blocks b hbmem).length_eq)]
    rw [List.length_map, List.length_range]
  have hNKm : N ≤ (combos_of preset_distances preset_widths).length * m := by
    rw [← hflat_len, ← hm]
    exact hlen_ge
  refine ⟨?_, ⟨m, ?_⟩, ?_⟩
  · rw [prepare_preset_plan, List.length_take, hm, hflat_len]
    omega
  · rw [prepare_preset_plan, hm]
  · intro c hcmem
    have hbounds := count_take_flatten_bounds
      (combos_of preset_distances preset_widths) hnd c hcmem
      ((List.range m).map
        (fun i => shuffle i (combos_of preset_distances preset_widths))) N
      hperm_blocks
      (by rw [List.length_map, List.length_range]; exact hNKm)
    have hceil_le :
        (N + (combos_of preset_distances preset_widths).length - 1) /
            (combos_of preset_distances preset_widths).length ≤
          N / (combos_of preset_distances preset_widths).length + 1 := by
      have h1 := Nat.div_le_div_right
        (c := (combos_of preset_distances preset_widths).length)
        (show N + (combos_of preset_distances preset_widths).length - 1 ≤
            N + (combos_of preset_distances preset_widths).length by omega)
      rw [Nat.add_div_right _ hKpos] at h1
      exact h1
    have hfloor_le :
        N / (combos_of preset_distances preset_widths).length ≤
          (N + (combos_of preset_distances preset_widths).length - 1) /
            (combos_of preset_distances preset_widths).length :=
      Nat.div_le_div_right (by omega)
    rw [prepare_preset_plan, hm, count_prod_instances]
    omega

/-- Witness for C6: the source's default design — distances `[120, 200, 320]`,
widths `[20, 40]` (6 distinct combinations) and 10 trials, with the identity
permutation as shuffle — yields a plan of length 10 in which every
combination occurs either `10 / 6 = 1` or `⌈10 / 6⌉ = 2` times. -/
theorem C6_witness :
    ((1 : ℕ) ≤ 10 ∧ combos_of [120, 200, 320] [20, 40] ≠ [] ∧
        (combos_of [120, 200, 320] [20, 40]).Nodup) ∧
      (prepare_preset_plan [120, 200, 320] [20, 40] 10 (fun _ l => l)).length = 10 ∧
      ∀ c ∈ combos_of [120, 200, 320] [20, 40],
        (prepare_preset_plan [120, 200, 320] [20, 40] 10 (fun _ l => l)).count c =
            10 / (combos_of [120, 200, 320] [20, 40]).length ∨
          (prepare_preset_plan [120, 200, 320] [20, 40] 10 (fun _ l => l)).count c =
            (10 + (combos_of [120, 200, 320] [20, 40]).length - 1) /
              (combos_of [120, 200, 320] [20, 40]).length := by
  have happ := C6_prepare_preset_plan_balanced [120, 200, 320] [20, 40] 10
    (fun _ l => l) (by norm_num) (by decide) (by decide)
    (fun i => List.Perm.refl _)
  exact ⟨⟨by norm_num, by decide, by decide⟩, happ.1, happ.2.2⟩

end MouseTracker
